import Mathlib

/-!
Verification of the WinUAE layer-2 audio bridge
(`src/od-win32/sounddep/audio_ringbuffer.h`, `audio_layer2.cpp`,
`audio_resampler.cpp`, `audio_wasapi_layer3.cpp`).

Shallow embedding conventions:
* `int16_t` / `int32_t` samples are `Int`; `float` / `double` values are `ℚ`
  (the source's real-valued arithmetic, with decimal literals such as `0.5`,
  `0.0001` read as the rationals they denote).
* Backing arrays are total maps `Nat → α`; `new T[n]` zero-fills via `memset`,
  hence the fresh buffer is the constant-zero map.
* `uint32_t` subtraction `a - b` is `(a + 2^32 - b) % 2^32` (its value for
  operands `b ≤ 2^32`); `x & capacityMask` is `x &&& (capacity - 1)`.
  Position additions `wPos + frameCount` never reach `2^32` for any buffer the
  source can build (`capacity ≤ 2^31`), so they are plain `Nat` additions.
* A null pointer argument is `Option.none`; C functions that take a data
  pointer take an `Option (List α)`.
* Logging, timing (`GetTickCount64`) and the debug-telemetry fields that only
  feed logging are omitted; counters that the claims mention are kept.
-/

/-- Truncation toward zero, the semantics of C's `(int)` cast of a
floating-point value. -/
def ctrunc (q : ℚ) : Int :=
  if 0 ≤ q then ⌊q⌋ else -⌊-q⌋

/-- `AudioRingBuffer<T>` state (audio_ringbuffer.h).  `alloc` models
`buffer != nullptr`; `capacityMask` is maintained as `capacity - 1` and is
inlined as such. -/
structure RingBuffer (α : Type) where
  alloc : Bool
  buffer : Nat → α
  capacity : Nat
  channels : Nat
  writePos : Nat
  readPos : Nat
  totalWritten : Nat
  totalRead : Nat
  overruns : Nat
  underruns : Nat

namespace RingBuffer

/-- Loop body of `NextPowerOf2`: `while (power < n) power <<= 1`.  The fuel
argument bounds the iteration count (the doubling loop needs at most `n`
steps to terminate for any `n` it terminates on). -/
def npow2Loop (n : Nat) : Nat → Nat → Nat
  | 0, power => power
  | fuel + 1, power => if power < n then npow2Loop n fuel (power * 2) else power

/-- `AudioRingBuffer<T>::NextPowerOf2` (audio_ringbuffer.h lines 223-237). -/
def NextPowerOf2 (n : Nat) : Nat :=
  if n = 0 then 1
  else if n &&& (n - 1) = 0 then n
  else npow2Loop n n 1

/-- `AudioRingBuffer<T>::Initialize` (lines 85-107).  Allocation always
succeeds in the model, mirroring that `new` does not return null. -/
def Initialize (α : Type) [Zero α] (capacityFrames : Nat) (numChannels : Nat) :
    RingBuffer α × Bool :=
  let cap := NextPowerOf2 capacityFrames
  ({ alloc := true
     buffer := fun _ => 0
     capacity := cap
     channels := numChannels
     writePos := 0
     readPos := 0
     totalWritten := 0
     totalRead := 0
     overruns := 0
     underruns := 0 }, true)

/-- `uint32_t` subtraction `a - b` for `b ≤ 2^32`. -/
def wrapSub (a b : Nat) : Nat := (a + 2 ^ 32 - b) % 2 ^ 32

/-- `GetAvailableRead` (lines 194-199): `(wPos - rPos) & capacityMask`. -/
def GetAvailableRead {α : Type} (rb : RingBuffer α) : Nat :=
  wrapSub rb.writePos rb.readPos &&& (rb.capacity - 1)

/-- `GetAvailableWrite` (lines 201-206): `(rPos - wPos - 1) & capacityMask`. -/
def GetAvailableWrite {α : Type} (rb : RingBuffer α) : Nat :=
  wrapSub rb.readPos (rb.writePos + 1) &&& (rb.capacity - 1)

/-- Functional array store. -/
def setSample {α : Type} (buffer : Nat → α) (idx : Nat) (v : α) : Nat → α :=
  fun j => if j = idx then v else buffer j

/-- The nested copy loop of `Write` (lines 137-144): ascending over frames,
then over channels. -/
def writeFrames {α : Type} [Zero α] (buffer : Nat → α) (src : List α)
    (wPos mask channels count : Nat) : Nat → α :=
  (List.range count).foldl
    (fun buf i =>
      (List.range channels).foldl
        (fun b ch =>
          setSample b (((wPos + i) &&& mask) * channels + ch)
            (src.getD (i * channels + ch) 0))
        buf)
    buffer

/-- `AudioRingBuffer<T>::Write` (lines 118-151). -/
def Write {α : Type} [Zero α] (rb : RingBuffer α) (data : Option (List α))
    (frameCount : Nat) : RingBuffer α × Bool :=
  if rb.alloc = false ∨ data.isNone ∨ frameCount = 0 then (rb, false)
  else
    let wPos := rb.writePos
    let rPos := rb.readPos
    let available := wrapSub rPos (wPos + 1) &&& (rb.capacity - 1)
    if frameCount > available then
      ({ rb with overruns := rb.overruns + 1 }, false)
    else
      ({ rb with
          buffer := writeFrames rb.buffer (data.getD []) wPos (rb.capacity - 1)
            rb.channels frameCount
          writePos := (wPos + frameCount) &&& (rb.capacity - 1)
          totalWritten := rb.totalWritten + frameCount }, true)

/-- `AudioRingBuffer<T>::Read` (lines 153-192).  The destination pointer is
always valid in the model; the copied samples are returned as a list. -/
def Read {α : Type} (rb : RingBuffer α) (frameCount : Nat) :
    RingBuffer α × List α × Nat :=
  if rb.alloc = false ∨ frameCount = 0 then (rb, [], 0)
  else
    let wPos := rb.writePos
    let rPos := rb.readPos
    let available := wrapSub wPos rPos &&& (rb.capacity - 1)
    if available = 0 then
      ({ rb with underruns := rb.underruns + 1 }, [], 0)
    else
      let toRead := min frameCount available
      let data :=
        ((List.range toRead).map (fun i =>
          (List.range rb.channels).map (fun ch =>
            rb.buffer (((rPos + i) &&& (rb.capacity - 1)) * rb.channels + ch)))).flatten
      ({ rb with
          readPos := (rPos + toRead) &&& (rb.capacity - 1)
          totalRead := rb.totalRead + toRead
          underruns := rb.underruns + (if toRead < frameCount then 1 else 0) },
       data, toRead)

/-- The `n` oldest frames of the ring, interleaved: frame `i` is read at
position `(readPos + i) & capacityMask` (the FIFO read order of `Read`). -/
def oldestFrames {α : Type} (rb : RingBuffer α) (n : Nat) : List α :=
  ((List.range n).map (fun i =>
    (List.range rb.channels).map (fun ch =>
      rb.buffer (((rb.readPos + i) &&& (rb.capacity - 1)) * rb.channels + ch)))).flatten

/-- Well-formedness of a ring-buffer state: both positions are in range and
the capacity is one of the powers of two the 32-bit source can build. -/
def RingWF {α : Type} (rb : RingBuffer α) : Prop :=
  rb.writePos < rb.capacity ∧ rb.readPos < rb.capacity ∧
    ∃ k, k ≤ 31 ∧ rb.capacity = 2 ^ k

end RingBuffer

lemma wrapSub_mask (k a b : Nat) (hk : k ≤ 32) (hb : b ≤ 2 ^ k) :
    RingBuffer.wrapSub a b &&& (2 ^ k - 1) = (a + 2 ^ k - b) % 2 ^ k := by
  have hdvd : (2 : Nat) ^ k ∣ 2 ^ 32 := pow_dvd_pow 2 hk
  have hle : (2 : Nat) ^ k ≤ 2 ^ 32 := Nat.pow_le_pow_right (by norm_num) hk
  rw [RingBuffer.wrapSub, Nat.and_pow_two_sub_one_eq_mod, Nat.mod_mod_of_dvd _ hdvd]
  have hsplit : (2 : Nat) ^ k * (2 ^ (32 - k) - 1) = 2 ^ 32 - 2 ^ k := by
    rw [Nat.mul_sub_one]
    congr 1
    rw [mul_comm, ← pow_add]
    congr 1
    omega
  have hx : a + 2 ^ 32 - b = (a + 2 ^ k - b) + 2 ^ k * (2 ^ (32 - k) - 1) := by
    rw [hsplit]; omega
  rw [hx, Nat.add_mul_mod_self_left]

lemma availRead_norm {α : Type} (rb : RingBuffer α) (h : RingBuffer.RingWF rb) :
    rb.GetAvailableRead = (rb.writePos + rb.capacity - rb.readPos) % rb.capacity := by
  obtain ⟨hw, hr, k, hk, hcap⟩ := h
  rw [RingBuffer.GetAvailableRead, hcap]
  exact wrapSub_mask k _ _ (by omega) (by omega)

lemma availWrite_norm {α : Type} (rb : RingBuffer α) (h : RingBuffer.RingWF rb) :
    rb.GetAvailableWrite = (rb.readPos + rb.capacity - (rb.writePos + 1)) % rb.capacity := by
  obtain ⟨hw, hr, k, hk, hcap⟩ := h
  rw [RingBuffer.GetAvailableWrite, hcap]
  exact wrapSub_mask k _ _ (by omega) (by omega)

/-- The central counting identity of the ring: with one slot reserved,
read-available and write-available always add up to `capacity - 1`. -/
lemma availRead_add_availWrite {α : Type} (rb : RingBuffer α)
    (h : RingBuffer.RingWF rb) :
    rb.GetAvailableRead + rb.GetAvailableWrite = rb.capacity - 1 := by
  obtain ⟨hw, hr, k, hk, hcap⟩ := h
  rw [availRead_norm rb ⟨hw, hr, k, hk, hcap⟩, availWrite_norm rb ⟨hw, hr, k, hk, hcap⟩]
  have hc1 : 1 ≤ rb.capacity := by rw [hcap]; exact Nat.one_le_two_pow
  set c := rb.capacity
  set w := rb.writePos
  set r := rb.readPos
  rcases le_or_lt r w with hcase | hcase
  · have h1 : w + c - r = (w - r) + c := by omega
    have h2 : (w + c - r) % c = w - r := by
      rw [h1, Nat.add_mod_right, Nat.mod_eq_of_lt (by omega)]
    have h3 : (r + c - (w + 1)) % c = r + c - (w + 1) := Nat.mod_eq_of_lt (by omega)
    omega
  · have h2 : (w + c - r) % c = w + c - r := Nat.mod_eq_of_lt (by omega)
    have h1 : r + c - (w + 1) = (r - (w + 1)) + c := by omega
    have h3 : (r + c - (w + 1)) % c = r - (w + 1) := by
      rw [h1, Nat.add_mod_right, Nat.mod_eq_of_lt (by omega)]
    omega

lemma npow2Loop_pow (n : Nat) :
    ∀ (fuel power : Nat), (∃ j, power = 2 ^ j) → power ≤ 2 ^ 31 → n ≤ 2 ^ 31 →
      (∃ k, RingBuffer.npow2Loop n fuel power = 2 ^ k) ∧
        RingBuffer.npow2Loop n fuel power ≤ 2 ^ 31 := by
  intro fuel
  induction fuel with
  | zero => intro power hpow hle _; exact ⟨hpow, hle⟩
  | succ fuel ih =>
    intro power hpow hle hn
    rw [RingBuffer.npow2Loop]
    by_cases hlt : power < n
    · rw [if_pos hlt]
      obtain ⟨j, hj⟩ := hpow
      have hj31 : j < 31 := by
        by_contra hcon
        have : (2 : Nat) ^ 31 ≤ 2 ^ j := Nat.pow_le_pow_right (by norm_num) (by omega)
        omega
      have hdouble : power * 2 = 2 ^ (j + 1) := by rw [hj, pow_succ]
      refine ih (power * 2) ⟨j + 1, hdouble⟩ ?_ hn
      rw [hdouble]
      exact Nat.pow_le_pow_right (by norm_num) (by omega)
    · rw [if_neg hlt]; exact ⟨hpow, hle⟩

lemma land_double_double (a b : Nat) : (2 * a) &&& (2 * b) = 2 * (a &&& b) := by
  have h := Nat.land_bit false a false b
  simpa [Nat.bit_false] using h

lemma land_double_double1 (a b : Nat) : (2 * a) &&& (2 * b + 1) = 2 * (a &&& b) := by
  have h := Nat.land_bit false a true b
  simpa [Nat.bit_false, Nat.bit_true] using h

lemma land_double1_double (a b : Nat) : (2 * a + 1) &&& (2 * b) = 2 * (a &&& b) := by
  have h := Nat.land_bit true a false b
  simpa [Nat.bit_false, Nat.bit_true] using h

/-- A positive number passing the source's `(n & (n - 1)) == 0` test is a
power of two. -/
lemma pow2_of_and_pred : ∀ n : Nat, 0 < n → n &&& (n - 1) = 0 → ∃ k, n = 2 ^ k := by
  intro n
  induction n using Nat.strong_induction_on with
  | _ n ih =>
    intro hpos hand
    rcases Nat.lt_or_ge n 2 with h2 | h2
    · have hn1 : n = 1 := by omega
      exact ⟨0, by omega⟩
    · rcases Nat.even_or_odd n with he | ho
      · obtain ⟨m, hm⟩ := he
        have hm' : n = 2 * m := by omega
        have hmpos : 0 < m := by omega
        have hsub : n - 1 = 2 * (m - 1) + 1 := by omega
        have hkey : n &&& (n - 1) = 2 * (m &&& (m - 1)) := by
          rw [hsub, hm', land_double_double1]
        have hz : m &&& (m - 1) = 0 := by omega
        obtain ⟨k, hk⟩ := ih m (by omega) hmpos hz
        exact ⟨k + 1, by rw [hm', hk, pow_succ]; ring⟩
      · obtain ⟨m, hm⟩ := ho
        have hmpos : 0 < m := by omega
        have hsub : n - 1 = 2 * m := by omega
        have hkey : n &&& (n - 1) = 2 * m := by
          rw [hsub, hm, land_double1_double, Nat.and_self]
        omega

lemma NextPowerOf2_spec (req : Nat) (hreq : req ≤ 2 ^ 31) :
    ∃ k, k ≤ 31 ∧ RingBuffer.NextPowerOf2 req = 2 ^ k := by
  rw [RingBuffer.NextPowerOf2]
  by_cases h0 : req = 0
  · exact ⟨0, by omega, by rw [if_pos h0]; norm_num⟩
  · rw [if_neg h0]
    by_cases hp : req &&& (req - 1) = 0
    · rw [if_pos hp]
      obtain ⟨k, hk⟩ := pow2_of_and_pred req (by omega) hp
      refine ⟨k, ?_, hk⟩
      by_contra hcon
      have : (2 : Nat) ^ 32 ≤ 2 ^ k := Nat.pow_le_pow_right (by norm_num) (by omega)
      omega
    · rw [if_neg hp]
      obtain ⟨⟨k, hk⟩, hle⟩ := npow2Loop_pow req req 1 ⟨0, rfl⟩ (by norm_num) hreq
      refine ⟨k, ?_, hk⟩
      by_contra hcon
      have : (2 : Nat) ^ 32 ≤ 2 ^ k := Nat.pow_le_pow_right (by norm_num) (by omega)
      omega

/-- The states of an `AudioRingBuffer<T>` reachable from `Initialize` by any
interleaving of `Write` and `Read` calls.  Requests above `2^31` frames are
excluded from `init`: on them the source's 32-bit `NextPowerOf2` loop never
returns. -/
inductive Reachable {α : Type} [Zero α] : RingBuffer α → Prop
  | init (req ch : Nat) (hreq : req ≤ 2 ^ 31) :
      Reachable (RingBuffer.Initialize α req ch).1
  | write (s : RingBuffer α) (data : Option (List α)) (n : Nat) :
      Reachable s → Reachable (s.Write data n).1
  | read (s : RingBuffer α) (n : Nat) :
      Reachable s → Reachable (s.Read n).1

lemma and_mask_lt {c : Nat} (hc : 0 < c) (x : Nat) : x &&& (c - 1) < c := by
  have h : x &&& (c - 1) ≤ c - 1 := Nat.and_le_right
  omega

lemma reachable_wf {α : Type} [Zero α] (s : RingBuffer α) (h : Reachable s) :
    RingBuffer.RingWF s := by
  induction h with
  | init req ch hreq =>
    obtain ⟨k, hk, hcap⟩ := NextPowerOf2_spec req hreq
    have hc : 0 < RingBuffer.NextPowerOf2 req := by
      rw [hcap]; exact pow_pos (by norm_num) k
    exact ⟨hc, hc, k, hk, hcap⟩
  | write s data n _ ih =>
    obtain ⟨hw, hr, k, hk, hcap⟩ := ih
    have hc : 0 < s.capacity := by rw [hcap]; exact pow_pos (by norm_num) k
    simp only [RingBuffer.Write]
    split_ifs
    · exact ⟨hw, hr, k, hk, hcap⟩
    · exact ⟨hw, hr, k, hk, hcap⟩
    · exact ⟨and_mask_lt hc _, hr, k, hk, hcap⟩
  | read s n _ ih =>
    obtain ⟨hw, hr, k, hk, hcap⟩ := ih
    have hc : 0 < s.capacity := by rw [hcap]; exact pow_pos (by norm_num) k
    simp only [RingBuffer.Read]
    split_ifs
    · exact ⟨hw, hr, k, hk, hcap⟩
    · exact ⟨hw, hr, k, hk, hcap⟩
    · exact ⟨hw, and_mask_lt hc _, k, hk, hcap⟩
    · exact ⟨hw, and_mask_lt hc _, k, hk, hcap⟩

/-- C4 (confirmed): in every state reachable from `Initialize` by `Write` and
`Read` calls, `GetAvailableRead() + GetAvailableWrite() = capacity - 1`. -/
theorem avail_sum_reachable {α : Type} [Zero α] (s : RingBuffer α)
    (h : Reachable s) :
    s.GetAvailableRead + s.GetAvailableWrite = s.capacity - 1 :=
  availRead_add_availWrite s (reachable_wf s h)

/-- Witness for C4 at a freshly initialized 4-frame stereo buffer. -/
theorem avail_sum_reachable_witness :
    (RingBuffer.Initialize Int 4 2).1.GetAvailableRead +
        (RingBuffer.Initialize Int 4 2).1.GetAvailableWrite =
      (RingBuffer.Initialize Int 4 2).1.capacity - 1 :=
  avail_sum_reachable (RingBuffer.Initialize Int 4 2).1
    (Reachable.init 4 2 (by norm_num))

lemma Write_overrun_general {α : Type} [Zero α] (rb : RingBuffer α)
    (xs : List α) (n : Nat) (halloc : rb.alloc = true)
    (hover : rb.GetAvailableWrite < n) :
    rb.Write (some xs) n = ({ rb with overruns := rb.overruns + 1 }, false) := by
  have hn : n ≠ 0 := by omega
  simp only [RingBuffer.Write]
  split_ifs with h1 h2
  · exact absurd h1 (by simp [halloc, hn])
  · rfl
  · exact absurd hover h2

/-- C3 (confirmed): writing more frames than `GetAvailableWrite` to an
initialized (allocated) ring returns `false` and increments `overruns` by
exactly one; every other component of the state is unchanged. -/
theorem Write_overrun_spec {α : Type} [Zero α] (rb : RingBuffer α)
    (xs : List α) (n : Nat) (halloc : rb.alloc = true)
    (hover : rb.GetAvailableWrite < n) :
    rb.Write (some xs) n = ({ rb with overruns := rb.overruns + 1 }, false) :=
  Write_overrun_general rb xs n halloc hover

/-- Witness for C3: a fresh 4-frame buffer has 3 writable frames, so a
100-frame write overruns. -/
theorem Write_overrun_spec_witness :
    (RingBuffer.Initialize Int 4 2).1.Write (some [1, 2]) 100 =
      ({ (RingBuffer.Initialize Int 4 2).1 with
          overruns := (RingBuffer.Initialize Int 4 2).1.overruns + 1 }, false) :=
  Write_overrun_spec (RingBuffer.Initialize Int 4 2).1 [1, 2] 100 rfl (by decide)

/-- C10 (confirmed): `Write` with a null source pointer or with
`frameCount = 0` returns `false` without touching the buffer state, and in
particular without incrementing `overruns`. -/
theorem Write_null_or_zero_noop {α : Type} [Zero α] (rb : RingBuffer α)
    (xs : List α) (n : Nat) (_halloc : rb.alloc = true) :
    rb.Write none n = (rb, false) ∧ rb.Write (some xs) 0 = (rb, false) := by
  constructor <;> rw [RingBuffer.Write, if_pos (by simp)]

/-- Witness for C10 at a fresh buffer. -/
theorem Write_null_or_zero_noop_witness :
    (RingBuffer.Initialize Int 4 2).1.Write none 5 =
        ((RingBuffer.Initialize Int 4 2).1, false) ∧
      (RingBuffer.Initialize Int 4 2).1.Write (some [1, 2]) 0 =
        ((RingBuffer.Initialize Int 4 2).1, false) :=
  Write_null_or_zero_noop (RingBuffer.Initialize Int 4 2).1 [1, 2] 5 rfl

/-- `AudioResampler` state (audio_resampler.h / .cpp).  `lastFrame` is the
saved final input frame of the previous chunk. -/
structure AudioResampler where
  initialized : Bool
  inputRate : ℚ
  outputRate : Int
  channels : Nat
  position : ℚ
  lastFrame : List Int

namespace AudioResampler

/-- The default-constructed resampler (audio_resampler.cpp lines 12-20). -/
def new : AudioResampler :=
  { initialized := false, inputRate := 0, outputRate := 0, channels := 0,
    position := 0, lastFrame := [] }

/-- `AudioResampler::Initialize` (lines 26-44).  `channels` is validated
positive and then used as a count, hence stored as `Nat` via `toNat`. -/
def Initialize (r : AudioResampler) (inRate : ℚ) (outRate : Int)
    (numChannels : Int) : AudioResampler × Bool :=
  if inRate ≤ 0 ∨ outRate ≤ 0 ∨ numChannels ≤ 0 then (r, false)
  else
    ({ initialized := true
       inputRate := inRate
       outputRate := outRate
       channels := numChannels.toNat
       position := 0
       lastFrame := List.replicate numChannels.toNat 0 }, true)

/-- `AudioResampler::SetInputRate` (audio_resampler.h). -/
def SetInputRate (r : AudioResampler) (newRate : ℚ) : AudioResampler :=
  { r with inputRate := newRate }

/-- The `while` loop of `Process` (lines 71-99), with fuel
`outputCapacity - outputFrames`.  `(int)position` is `ctrunc`; a negative
index (unreachable in source-constructible states) reads slot 0 via
`Int.toNat`. -/
def processLoop (input : List Int) (inputFrames channels : Nat) (ratioVal : ℚ) :
    Nat → ℚ → List (List ℚ) × ℚ
  | 0, pos => ([], pos)
  | fuel + 1, pos =>
    let inputIndex : Int := ctrunc pos
    if inputIndex ≥ (inputFrames : Int) - 1 then ([], pos)
    else
      let frac : ℚ := pos - (inputIndex : ℚ)
      let frame := (List.range channels).map (fun ch =>
        let sample0 : ℚ := ((input.getD (inputIndex.toNat * channels + ch) 0 : Int) : ℚ)
        let sample1 : ℚ :=
          ((input.getD ((inputIndex.toNat + 1) * channels + ch) 0 : Int) : ℚ)
        (sample0 + (sample1 - sample0) * frac) / 32768)
      let rest := processLoop input inputFrames channels ratioVal fuel (pos + ratioVal)
      (frame :: rest.1, rest.2)

/-- `AudioResampler::Process` (lines 56-115).  Returns the new state, the
produced frames (each a `channels`-sample list) and the produced count. -/
def Process (r : AudioResampler) (input : List Int)
    (inputFrames outputCapacity : Nat) : AudioResampler × List (List ℚ) × Nat :=
  if r.initialized = false ∨ inputFrames = 0 ∨ outputCapacity = 0 then (r, [], 0)
  else
    let ratioVal : ℚ := r.inputRate / (r.outputRate : ℚ)
    let lp := processLoop input inputFrames r.channels ratioVal outputCapacity r.position
    let lastFrame := (List.range r.channels).map
      (fun ch => input.getD ((inputFrames - 1) * r.channels + ch) 0)
    let posAdj := lp.2 - (inputFrames : ℚ)
    ({ r with
        position := if posAdj < 0 then 0 else posAdj
        lastFrame := lastFrame }, lp.1, lp.1.length)

end AudioResampler

/-- Input frame `j` of an interleaved int16 chunk, scaled to float by
`1/32768` — the value C5/C8-style identity claims compare against. -/
def scaledFrame (input : List Int) (channels j : Nat) : List ℚ :=
  (List.range channels).map
    (fun ch => ((input.getD (j * channels + ch) 0 : Int) : ℚ) / 32768)

lemma ctrunc_natCast (j : Nat) : ctrunc (j : ℚ) = (j : Int) := by
  rw [ctrunc, if_pos (by positivity)]
  exact_mod_cast Int.floor_natCast j

lemma processLoop_ratio_one (input : List Int) (n ch : Nat) :
    ∀ (fuel j : Nat),
      AudioResampler.processLoop input n ch 1 fuel (j : ℚ) =
        ((List.range (min fuel (n - 1 - j))).map
            (fun k => scaledFrame input ch (j + k)),
          ((j + min fuel (n - 1 - j) : Nat) : ℚ)) := by
  intro fuel
  induction fuel with
  | zero => intro j; simp [AudioResampler.processLoop]
  | succ fuel ih =>
    intro j
    rw [AudioResampler.processLoop]
    rw [ctrunc_natCast]
    by_cases hge : n - 1 ≤ j
    · rw [if_pos (by omega)]
      have hmin : min (fuel + 1) (n - 1 - j) = 0 := by omega
      simp [hmin]
    · rw [if_neg (by omega)]
      have hfrac : (j : ℚ) - ((j : Int) : ℚ) = 0 := by push_cast; ring
      have hcast : (j : ℚ) + 1 = ((j + 1 : Nat) : ℚ) := by push_cast; ring
      rw [hfrac, hcast, ih (j + 1)]
      have hmin : min (fuel + 1) (n - 1 - j) = min fuel (n - 1 - (j + 1)) + 1 := by
        omega
      rw [hmin]
      simp only [Prod.mk.injEq]
      constructor
      · rw [List.range_succ_eq_map, List.map_cons, List.map_map]
        congr 1
        · simp [scaledFrame]
        · refine List.map_congr_left fun k _ => ?_
          simp only [Function.comp]
          congr 1
          omega
      · have harith : j + 1 + min fuel (n - 1 - (j + 1)) =
            j + (min fuel (n - 1 - (j + 1)) + 1) := by omega
        exact_mod_cast congrArg (fun x : Nat => (x : ℚ)) harith

/-- C8 (confirmed): with `input_rate = output_rate` and `position = 0`,
`Process` on an `n ≥ 1` frame chunk with output capacity `≥ n - 1` emits
exactly the first `n - 1` input frames scaled by `1/32768`. -/
theorem Process_identity_rate_equal (r : AudioResampler) (input : List Int)
    (n cap : Nat) (hinit : r.initialized = true)
    (hrate : r.inputRate = (r.outputRate : ℚ)) (hout : 0 < r.outputRate)
    (hpos : r.position = 0) (hn : 1 ≤ n) (hcap : n - 1 ≤ cap) :
    (r.Process input n cap).2.2 = n - 1 ∧
      (r.Process input n cap).2.1 =
        (List.range (n - 1)).map (fun j => scaledFrame input r.channels j) := by
  rcases Nat.eq_zero_or_pos cap with hc0 | hcpos
  · subst hc0
    have hn1 : n = 1 := by omega
    subst hn1
    simp [AudioResampler.Process]
  · simp only [AudioResampler.Process]
    rw [if_neg (by simp [hinit]; omega)]
    have hratio : r.inputRate / (r.outputRate : ℚ) = 1 := by
      rw [hrate]
      exact div_self (by exact_mod_cast hout.ne')
    rw [hratio, hpos]
    have hloop := processLoop_ratio_one input n r.channels cap 0
    rw [show ((0 : Nat) : ℚ) = 0 from by norm_num] at hloop
    rw [hloop]
    refine ⟨?_, ?_⟩
    · simp
      omega
    · have hmin : min cap (n - 1) = n - 1 := by omega
      simp [hmin]

/-- The default-constructed `AudioRingBuffer<T>` (audio_ringbuffer.h lines
68-78): nothing allocated yet. -/
def RingBuffer.new (α : Type) [Zero α] : RingBuffer α :=
  { alloc := false, buffer := fun _ => 0, capacity := 0, channels := 0,
    writePos := 0, readPos := 0, totalWritten := 0, totalRead := 0,
    overruns := 0, underruns := 0 }

/-- `RateMeasurement` state (audio_layer2.cpp); `lastLogTime` only gates
logging and is omitted. -/
structure RateMeasurement where
  currentRate : ℚ
  emaRate : ℚ
  sampleCount : Nat

/-- The default-constructed `RateMeasurement()` — all fields zero. -/
def RateMeasurement.init : RateMeasurement :=
  { currentRate := 0, emaRate := 0, sampleCount := 0 }

/-- `AudioLayer2::UpdateRateMeasurement` (audio_layer2.cpp lines 215-260),
as a pure state transformer on the estimator.  `cycles` is
`cycles_per_sample`, `sb` the external `syncbase`; the instantaneous rate is
`sb / cycles`.  The source literals `0.5`, `1.5`, `0.0001` are the exact
rationals `1/2`, `3/2`, `1/10000`. -/
def updateRate (targetSampleRate : Int) (rm : RateMeasurement) (cycles sb : ℚ) :
    RateMeasurement :=
  if cycles ≤ 0 then rm
  else
    let instantRate := sb / cycles
    let minRate : ℚ := (targetSampleRate : ℚ) * (1 / 2)
    let maxRate : ℚ := (targetSampleRate : ℚ) * (3 / 2)
    if instantRate < minRate ∨ instantRate > maxRate then rm
    else
      let alpha : ℚ := 1 / 10000
      let rmA :=
        if rm.currentRate = 0 then
          { rm with currentRate := instantRate, emaRate := instantRate }
        else
          let ema := alpha * instantRate + (1 - alpha) * rm.emaRate
          { rm with emaRate := ema, currentRate := ema }
      { rmA with sampleCount := rmA.sampleCount + 1 }

/-- The estimator after a sequence of `UpdateRateMeasurement` calls with
arguments `(cycles_per_sample, syncbase)`, starting from the
default-constructed state. -/
def runObservations (targetSampleRate : Int) (obs : List (ℚ × ℚ)) :
    RateMeasurement :=
  obs.foldl (fun rm p => updateRate targetSampleRate rm p.1 p.2)
    RateMeasurement.init

/-- The published rate is either still unseeded (0) or inside the acceptance
interval, with the EMA equal to it. -/
def estimatorInRange (targetSampleRate : Int) (rm : RateMeasurement) : Prop :=
  rm.currentRate = 0 ∨
    ((targetSampleRate : ℚ) * (1 / 2) ≤ rm.currentRate ∧
      rm.currentRate ≤ (targetSampleRate : ℚ) * (3 / 2) ∧
      rm.emaRate = rm.currentRate)

lemma updateRate_inv (target : Int) (rm : RateMeasurement) (c s : ℚ)
    (h : estimatorInRange target rm) :
    estimatorInRange target (updateRate target rm c s) := by
  simp only [updateRate, estimatorInRange] at h ⊢
  split_ifs with h1 h2 h3
  · exact h
  · exact h
  · push_neg at h2
    exact Or.inr ⟨h2.1, h2.2, rfl⟩
  · rcases h with h0 | ⟨hlo, hhi, hema⟩
    · exact absurd h0 h3
    · push_neg at h2
      right
      refine ⟨?_, ?_, rfl⟩ <;>
        · show _ ≤ _
          simp only
          rw [hema]
          nlinarith [h2.1, h2.2, hlo, hhi]

lemma runObservations_inv (target : Int) (obs : List (ℚ × ℚ)) :
    ∀ rm : RateMeasurement, estimatorInRange target rm →
      estimatorInRange target
        (obs.foldl (fun rm p => updateRate target rm p.1 p.2) rm) := by
  induction obs with
  | nil => intro rm h; exact h
  | cons p rest ih =>
    intro rm h
    exact ih _ (updateRate_inv target rm p.1 p.2 h)

/-- C9 (confirmed): after any sequence of `UpdateRateMeasurement` calls with
any arguments, the published `currentRate` is 0 (nothing accepted yet) or
lies in `[0.5 × target, 1.5 × target]`, and then equals the EMA. -/
theorem estimator_current_in_range (target : Int) (obs : List (ℚ × ℚ)) :
    estimatorInRange target (runObservations target obs) :=
  runObservations_inv target obs RateMeasurement.init (Or.inl rfl)

/-- C6 (confirmed): an observation with `cycles_per_sample ≤ 0` or with
instantaneous rate `syncbase / cycles_per_sample` outside
`[0.5 × target, 1.5 × target]` leaves `currentRate` and `emaRate`
unchanged. -/
theorem updateRate_reject_spec (target : Int) (rm : RateMeasurement)
    (cycles sb : ℚ)
    (h : cycles ≤ 0 ∨ sb / cycles < (target : ℚ) * (1 / 2) ∨
      sb / cycles > (target : ℚ) * (3 / 2)) :
    (updateRate target rm cycles sb).currentRate = rm.currentRate ∧
      (updateRate target rm cycles sb).emaRate = rm.emaRate := by
  simp only [updateRate]
  split_ifs with h1 h2 h3
  · exact ⟨rfl, rfl⟩
  · exact ⟨rfl, rfl⟩
  · exact absurd (h.resolve_left h1) h2
  · exact absurd (h.resolve_left h1) h2

/-- Witness for C6: an in-bounds estimator rejects a 1 Hz observation
against a 48 kHz target. -/
theorem updateRate_reject_spec_witness :
    (updateRate 48000 RateMeasurement.init 1 1).currentRate =
        RateMeasurement.init.currentRate ∧
      (updateRate 48000 RateMeasurement.init 1 1).emaRate =
        RateMeasurement.init.emaRate :=
  updateRate_reject_spec 48000 RateMeasurement.init 1 1
    (Or.inr (Or.inl (by norm_num)))

/-- Concrete resampler for the C8 witness. -/
def resamplerW : AudioResampler :=
  { initialized := true, inputRate := 48000, outputRate := 48000, channels := 2,
    position := 0, lastFrame := [0, 0] }

/-- Witness for C8: a 2-frame stereo chunk at equal rates yields its first
frame scaled by `1/32768`. -/
theorem Process_identity_rate_equal_witness :
    (resamplerW.Process [100, -200, 300, 400] 2 1).2.2 = 2 - 1 ∧
      (resamplerW.Process [100, -200, 300, 400] 2 1).2.1 =
        (List.range (2 - 1)).map
          (fun j => scaledFrame [100, -200, 300, 400] resamplerW.channels j) :=
  Process_identity_rate_equal resamplerW [100, -200, 300, 400] 2 1 rfl
    (by norm_num [resamplerW]) (by norm_num [resamplerW]) rfl (by norm_num)
    (by norm_num)

/-- `AudioLayer2Config` (audio_layer2.h lines 43-47). -/
structure AudioLayer2Config where
  targetSampleRate : Int
  channels : Int
  ringBufferFrames : Int

/-- `AudioLayer2` state (audio_layer2.h / .cpp, direct-write mode).  The
scratch buffers `tempBuffer` / `inputTempBuffer` only stage data between
calls within one function and always hold enough room after the on-demand
growth, so they have no persistent observable state and are elided; the
debug counters the claims mention (`g_audioDebugVars.layer2Overruns`,
`pushSampleCalls`, `resampleCalls`) are carried as fields. -/
structure AudioLayer2 where
  initialized : Bool
  config : AudioLayer2Config
  inputBuffer : RingBuffer Int
  ringBuffer : RingBuffer ℚ
  resampler : AudioResampler
  rateMeasurement : RateMeasurement
  layer2Overruns : Nat
  pushSampleCalls : Nat
  resampleCalls : Nat

namespace AudioLayer2

/-- `AudioLayer2::Initialize` (audio_layer2.cpp lines 73-151) on a freshly
constructed object.  Allocation never fails in the model, so only the
config-validation failure path is reachable. -/
def Initialize (cfg : AudioLayer2Config) : AudioLayer2 × Bool :=
  if cfg.targetSampleRate ≤ 0 ∨ cfg.channels ≤ 0 ∨ cfg.ringBufferFrames ≤ 0 then
    ({ initialized := false, config := cfg,
       inputBuffer := RingBuffer.new Int, ringBuffer := RingBuffer.new ℚ,
       resampler := AudioResampler.new, rateMeasurement := RateMeasurement.init,
       layer2Overruns := 0, pushSampleCalls := 0, resampleCalls := 0 }, false)
  else
    let inputCapacityPre : Int := cfg.targetSampleRate / 100
    let inputCapacity : Int := if inputCapacityPre < 16 then 16 else inputCapacityPre
    ({ initialized := true, config := cfg,
       inputBuffer := (RingBuffer.Initialize Int inputCapacity.toNat cfg.channels.toNat).1,
       ringBuffer := (RingBuffer.Initialize ℚ cfg.ringBufferFrames.toNat cfg.channels.toNat).1,
       resampler := AudioResampler.new, rateMeasurement := RateMeasurement.init,
       layer2Overruns := 0, pushSampleCalls := 0, resampleCalls := 0 }, true)

/-- Tail of `AudioLayer2::ResampleInputToOutput` (audio_layer2.cpp lines
304-334) after the resampler is known to be configured: compute
`expectedOutput`, run `Process`, write the produced frames to the output
ring, counting an overrun if that write fails. -/
def resampleTail (b : AudioLayer2) (readData : List Int) (read : Nat) :
    AudioLayer2 :=
  let cur := b.rateMeasurement.currentRate
  let inputRate : ℚ := if cur > 0 then cur else (b.config.targetSampleRate : ℚ)
  let rateRatioVal : ℚ := (b.config.targetSampleRate : ℚ) / inputRate
  let expectedOutput : Int := ctrunc ((read : ℚ) * rateRatioVal) + 32
  let pr := b.resampler.Process readData read expectedOutput.toNat
  let b1 := { b with resampler := pr.1 }
  if pr.2.2 > 0 then
    let wr := b1.ringBuffer.Write (some pr.2.1.flatten) pr.2.2
    let b2 := { b1 with ringBuffer := wr.1 }
    if wr.2 = false then { b2 with layer2Overruns := b2.layer2Overruns + 1 }
    else b2
  else b1

/-- `AudioLayer2::ResampleInputToOutput` (audio_layer2.cpp lines 262-335). -/
def ResampleInputToOutput (b : AudioLayer2) : AudioLayer2 :=
  if b.initialized = false then b
  else
    let available := b.inputBuffer.GetAvailableRead
    if available < 16 then b
    else
      let toProcess := min available 128
      let b1 := { b with resampleCalls := b.resampleCalls + 1 }
      let rd := b1.inputBuffer.Read toProcess
      let b2 := { b1 with inputBuffer := rd.1 }
      if rd.2.2 = 0 then b2
      else
        if b2.resampler.initialized = false then
          let cur := b2.rateMeasurement.currentRate
          let initialRate : ℚ :=
            if cur > 0 then cur else (b2.config.targetSampleRate : ℚ)
          let ini := b2.resampler.Initialize initialRate
            b2.config.targetSampleRate b2.config.channels
          if ini.2 = false then { b2 with resampler := ini.1 }
          else resampleTail { b2 with resampler := ini.1 } rd.2.1 rd.2.2
        else
          if b2.rateMeasurement.currentRate > 0 then
            resampleTail
              { b2 with resampler :=
                  b2.resampler.SetInputRate b2.rateMeasurement.currentRate }
              rd.2.1 rd.2.2
          else resampleTail b2 rd.2.1 rd.2.2

/-- Steps 1-2 of `AudioLayer2::PushSample` (audio_layer2.cpp lines 200-209):
try to write the stereo frame; on overrun count it, drop the oldest frame
and retry. -/
def PushSampleWrite (b : AudioLayer2) (left right : Int) : AudioLayer2 :=
  let stereo : List Int := [left, right]
  let w1 := b.inputBuffer.Write (some stereo) 1
  if w1.2 then { b with inputBuffer := w1.1 }
  else
    let b1 := { b with
                inputBuffer := w1.1
                layer2Overruns := b.layer2Overruns + 1 }
    let rd := b1.inputBuffer.Read 1
    let w2 := rd.1.Write (some stereo) 1
    { b1 with inputBuffer := w2.1 }

/-- `AudioLayer2::UpdateRateMeasurement` as a bridge-state transformer. -/
def UpdateRateMeasurement (b : AudioLayer2) (cycles sb : ℚ) : AudioLayer2 :=
  { b with rateMeasurement :=
      updateRate b.config.targetSampleRate b.rateMeasurement cycles sb }

/-- `AudioLayer2::PushSample` (audio_layer2.cpp lines 195-213).  `sb` is the
external `syncbase`. -/
def PushSample (b : AudioLayer2) (left right : Int) (cycles sb : ℚ) :
    AudioLayer2 :=
  if b.initialized = false then b
  else
    let b1 := { b with pushSampleCalls := b.pushSampleCalls + 1 }
    let b2 := b1.PushSampleWrite left right
    let b3 := b2.UpdateRateMeasurement cycles sb
    b3.ResampleInputToOutput

/-- `AudioLayer2::PullSamples` (audio_layer2.cpp lines 470-492): read from
the output ring, zero-fill the tail, always report `requestedFrames`. -/
def PullSamples (b : AudioLayer2) (requestedFrames : Nat) :
    AudioLayer2 × List ℚ × Nat :=
  if b.initialized = false then (b, [], 0)
  else
    let rd := b.ringBuffer.Read requestedFrames
    let output := rd.2.1 ++
      List.replicate ((requestedFrames - rd.2.2) * b.config.channels.toNat)
        (0 : ℚ)
    ({ b with ringBuffer := rd.1 }, output, requestedFrames)

end AudioLayer2

/-- C1 (confirmed): on an initialized bridge, `PullSamples` with a positive
request always returns `requestedFrames`; the output is the
`min(requested, available_read)` oldest frames of the output ring followed
by zero-fill. -/
theorem PullSamples_spec (b : AudioLayer2) (req : Nat)
    (hinit : b.initialized = true) (halloc : b.ringBuffer.alloc = true)
    (hreq : 0 < req) :
    (b.PullSamples req).2.2 = req ∧
      (b.PullSamples req).2.1 =
        b.ringBuffer.oldestFrames (min req b.ringBuffer.GetAvailableRead) ++
          List.replicate
            ((req - min req b.ringBuffer.GetAvailableRead) *
              b.config.channels.toNat) (0 : ℚ) := by
  have hreq0 : req ≠ 0 := by omega
  simp only [AudioLayer2.PullSamples]
  rw [if_neg (by simp [hinit])]
  simp only [RingBuffer.Read]
  split_ifs with h1 h2
  · exact absurd h1 (by simp [halloc, hreq0])
  · refine ⟨trivial, ?_⟩
    rw [show b.ringBuffer.GetAvailableRead = 0 from h2]
    simp [RingBuffer.oldestFrames]
  · exact ⟨trivial, rfl⟩
  · exact ⟨trivial, rfl⟩

/-- Concrete initialized bridge with two frames in its output ring, for the
C1 witness. -/
def c1Bridge : AudioLayer2 :=
  let b0 := (AudioLayer2.Initialize
    { targetSampleRate := 48000, channels := 2, ringBufferFrames := 4 }).1
  { b0 with ringBuffer :=
      (b0.ringBuffer.Write (some [1/2, -1/2, 1/4, 1/8]) 2).1 }

/-- Witness for C1: pulling 4 frames from a ring holding 2 yields the 2
oldest frames plus 2 zero frames and reports 4. -/
theorem PullSamples_spec_witness :
    (c1Bridge.PullSamples 4).2.2 = 4 ∧
      (c1Bridge.PullSamples 4).2.1 =
        c1Bridge.ringBuffer.oldestFrames
            (min 4 c1Bridge.ringBuffer.GetAvailableRead) ++
          List.replicate
            ((4 - min 4 c1Bridge.ringBuffer.GetAvailableRead) *
              c1Bridge.config.channels.toNat) (0 : ℚ) :=
  PullSamples_spec c1Bridge 4 rfl rfl (by norm_num)

lemma Process_preserves_rates (r : AudioResampler) (input : List Int)
    (nf oc : Nat) :
    (r.Process input nf oc).1.initialized = r.initialized ∧
      (r.Process input nf oc).1.inputRate = r.inputRate ∧
      (r.Process input nf oc).1.outputRate = r.outputRate := by
  simp only [AudioResampler.Process]
  split_ifs <;> exact ⟨rfl, rfl, rfl⟩

lemma resampleTail_resampler_fields (b : AudioLayer2) (d : List Int) (n : Nat) :
    (b.resampleTail d n).resampler.initialized = b.resampler.initialized ∧
      (b.resampleTail d n).resampler.inputRate = b.resampler.inputRate ∧
      (b.resampleTail d n).resampler.outputRate = b.resampler.outputRate := by
  simp only [AudioLayer2.resampleTail]
  split_ifs <;> exact Process_preserves_rates b.resampler d n _

lemma Read_count_pos {α : Type} (rb : RingBuffer α) (n : Nat)
    (halloc : rb.alloc = true) (hn : n ≠ 0) (ha : rb.GetAvailableRead ≠ 0) :
    (rb.Read n).2.2 = min n rb.GetAvailableRead := by
  simp only [RingBuffer.Read]
  split_ifs with g1 g2
  · exact absurd g1 (by simp [halloc, hn])
  · exact absurd g2 ha
  · rfl
  · rfl

lemma Initialize_success (r : AudioResampler) (inRate : ℚ) (outRate nch : Int)
    (h : ¬(inRate ≤ 0 ∨ outRate ≤ 0 ∨ nch ≤ 0)) :
    r.Initialize inRate outRate nch =
      ({ initialized := true, inputRate := inRate, outputRate := outRate,
         channels := nch.toNat, position := 0,
         lastFrame := List.replicate nch.toNat 0 }, true) := by
  simp only [AudioResampler.Initialize]
  rw [if_neg h]

/-- Concrete bridge for C2: resampler still unconfigured, 16 frames queued,
estimator already publishing 44 100 Hz against a 48 000 Hz target. -/
def c2Bridge : AudioLayer2 :=
  { initialized := true
    config := { targetSampleRate := 48000, channels := 2, ringBufferFrames := 64 }
    inputBuffer :=
      ((RingBuffer.Initialize Int 512 2).1.Write
        (some (List.replicate 32 (0 : Int))) 16).1
    ringBuffer := (RingBuffer.Initialize ℚ 64 2).1
    resampler := AudioResampler.new
    rateMeasurement := { currentRate := 44100, emaRate := 44100, sampleCount := 1 }
    layer2Overruns := 0
    pushSampleCalls := 0
    resampleCalls := 0 }

lemma resampleTail_inputBuffer (b : AudioLayer2) (d : List Int) (n : Nat) :
    (b.resampleTail d n).inputBuffer = b.inputBuffer := by
  simp only [AudioLayer2.resampleTail]
  split_ifs <;> rfl

/-- After a `ResampleInputToOutput` call that passes the 16-frame threshold,
the input ring is exactly the ring left by the internal `Read` of
`min(available, 128)` frames — independent of what the resampler then
does. -/
lemma drain_inputBuffer (b : AudioLayer2) (hinit : b.initialized = true)
    (h16 : 16 ≤ b.inputBuffer.GetAvailableRead) :
    (AudioLayer2.ResampleInputToOutput b).inputBuffer =
      (b.inputBuffer.Read (min b.inputBuffer.GetAvailableRead 128)).1 := by
  simp only [AudioLayer2.ResampleInputToOutput]
  split_ifs <;>
    first
      | rfl
      | exact resampleTail_inputBuffer _ _ _
      | (exfalso; omega)
      | (rename_i hbad; rw [hinit] at hbad; simp at hbad)

/-- General form of the amended C2 statement. -/
lemma drain_lazy_init_rate_general (b : AudioLayer2)
    (hinit : b.initialized = true)
    (halloc : b.inputBuffer.alloc = true)
    (hres : b.resampler.initialized = false)
    (havail : 16 ≤ b.inputBuffer.GetAvailableRead)
    (htarget : 0 < b.config.targetSampleRate)
    (hch : 0 < b.config.channels) :
    (AudioLayer2.ResampleInputToOutput b).resampler.initialized = true ∧
      (AudioLayer2.ResampleInputToOutput b).resampler.inputRate =
        (if b.rateMeasurement.currentRate > 0 then b.rateMeasurement.currentRate
         else (b.config.targetSampleRate : ℚ)) ∧
      (AudioLayer2.ResampleInputToOutput b).resampler.outputRate =
        b.config.targetSampleRate := by
  have hread := Read_count_pos b.inputBuffer (min b.inputBuffer.GetAvailableRead 128)
    halloc (by omega) (by omega)
  have hguard : ¬((if b.rateMeasurement.currentRate > 0 then
        b.rateMeasurement.currentRate else (b.config.targetSampleRate : ℚ)) ≤ 0 ∨
      b.config.targetSampleRate ≤ 0 ∨ b.config.channels ≤ 0) := by
    push_neg
    refine ⟨?_, by omega, by omega⟩
    split_ifs with hcur
    · linarith
    · exact_mod_cast htarget
  have hini := Initialize_success b.resampler
    (if b.rateMeasurement.currentRate > 0 then b.rateMeasurement.currentRate
     else (b.config.targetSampleRate : ℚ))
    b.config.targetSampleRate b.config.channels hguard
  simp only [AudioLayer2.ResampleInputToOutput]
  rw [if_neg (show ¬b.initialized = false by simp [hinit])]
  rw [if_neg (show ¬b.inputBuffer.GetAvailableRead < 16 by omega)]
  rw [if_neg (show
    ¬(b.inputBuffer.Read (min b.inputBuffer.GetAvailableRead 128)).2.2 = 0 by
      rw [hread]; omega)]
  rw [if_pos (show b.resampler.initialized = false from hres)]
  rw [hini]
  dsimp only
  rw [if_neg (show ¬(true = false) from by simp)]
  rw [(resampleTail_resampler_fields _ _ _).1,
    (resampleTail_resampler_fields _ _ _).2.1,
    (resampleTail_resampler_fields _ _ _).2.2]
  exact ⟨rfl, rfl, rfl⟩

/-- C2 (amended): when `ResampleInputToOutput` runs on an initialized bridge
with the resampler not yet initialized and at least 16 frames available in
the input ring, it initializes the resampler with
`input_rate = estimator.current` if that is positive, else `target_rate`
(not `max(current, target)`), and `output_rate = target_rate`. -/
theorem drain_lazy_init_rate (b : AudioLayer2)
    (hinit : b.initialized = true)
    (halloc : b.inputBuffer.alloc = true)
    (hres : b.resampler.initialized = false)
    (havail : 16 ≤ b.inputBuffer.GetAvailableRead)
    (htarget : 0 < b.config.targetSampleRate)
    (hch : 0 < b.config.channels) :
    (AudioLayer2.ResampleInputToOutput b).resampler.initialized = true ∧
      (AudioLayer2.ResampleInputToOutput b).resampler.inputRate =
        (if b.rateMeasurement.currentRate > 0 then b.rateMeasurement.currentRate
         else (b.config.targetSampleRate : ℚ)) ∧
      (AudioLayer2.ResampleInputToOutput b).resampler.outputRate =
        b.config.targetSampleRate :=
  drain_lazy_init_rate_general b hinit halloc hres havail htarget hch

/-- Counterexample to C2 as stated: on `c2Bridge` (estimator at 44 100 Hz,
48 000 Hz target) the lazy initialization picks 44 100 Hz, not
`max(current, target) = 48 000` Hz. -/
theorem drain_lazy_init_not_max :
    c2Bridge.resampler.initialized = false ∧
      16 ≤ c2Bridge.inputBuffer.GetAvailableRead ∧
      (AudioLayer2.ResampleInputToOutput c2Bridge).resampler.initialized = true ∧
      (AudioLayer2.ResampleInputToOutput c2Bridge).resampler.inputRate ≠
        max c2Bridge.rateMeasurement.currentRate
          (c2Bridge.config.targetSampleRate : ℚ) := by
  have hav : 16 ≤ c2Bridge.inputBuffer.GetAvailableRead := by decide
  obtain ⟨h1, h2, h3⟩ := drain_lazy_init_rate_general c2Bridge rfl (by decide)
    rfl hav (by decide) (by decide)
  refine ⟨rfl, hav, h1, ?_⟩
  rw [h2]
  norm_num [c2Bridge]

/-- Witness for the amended C2 at `c2Bridge`. -/
theorem drain_lazy_init_rate_witness :
    (AudioLayer2.ResampleInputToOutput c2Bridge).resampler.initialized = true ∧
      (AudioLayer2.ResampleInputToOutput c2Bridge).resampler.inputRate =
        (if c2Bridge.rateMeasurement.currentRate > 0 then
          c2Bridge.rateMeasurement.currentRate
         else (c2Bridge.config.targetSampleRate : ℚ)) ∧
      (AudioLayer2.ResampleInputToOutput c2Bridge).resampler.outputRate =
        c2Bridge.config.targetSampleRate :=
  drain_lazy_init_rate c2Bridge rfl (by decide) rfl (by decide) (by decide)
    (by decide)

lemma Read_fst_fields {α : Type} (rb : RingBuffer α) (n : Nat)
    (halloc : rb.alloc = true) (hn : n ≠ 0) (ha : rb.GetAvailableRead ≠ 0) :
    (rb.Read n).1.readPos =
        (rb.readPos + min n rb.GetAvailableRead) &&& (rb.capacity - 1) ∧
      (rb.Read n).1.writePos = rb.writePos ∧
      (rb.Read n).1.capacity = rb.capacity ∧
      (rb.Read n).1.alloc = rb.alloc ∧
      (rb.Read n).1.channels = rb.channels ∧
      (rb.Read n).1.buffer = rb.buffer := by
  simp only [RingBuffer.Read]
  split_ifs with g1 g2
  · exact absurd g1 (by simp [halloc, hn])
  · exact absurd g2 ha
  · exact ⟨rfl, rfl, rfl, rfl, rfl, rfl⟩
  · exact ⟨rfl, rfl, rfl, rfl, rfl, rfl⟩

lemma Write_success_fields {α : Type} [Zero α] (rb : RingBuffer α)
    (xs : List α) (n : Nat) (halloc : rb.alloc = true) (hn : n ≠ 0)
    (hav : n ≤ rb.GetAvailableWrite) :
    (rb.Write (some xs) n).2 = true ∧
      (rb.Write (some xs) n).1.writePos =
        (rb.writePos + n) &&& (rb.capacity - 1) ∧
      (rb.Write (some xs) n).1.readPos = rb.readPos ∧
      (rb.Write (some xs) n).1.capacity = rb.capacity ∧
      (rb.Write (some xs) n).1.alloc = rb.alloc ∧
      (rb.Write (some xs) n).1.channels = rb.channels ∧
      (rb.Write (some xs) n).1.buffer =
        RingBuffer.writeFrames rb.buffer xs rb.writePos (rb.capacity - 1)
          rb.channels n := by
  simp only [RingBuffer.Write]
  split_ifs with g1 g2
  · exact absurd g1 (by simp [halloc, hn])
  · exact absurd hav (not_le.mpr g2)
  · exact ⟨rfl, rfl, rfl, rfl, rfl, rfl, rfl⟩

lemma ring_drop_retry_arith (c w r : Nat) (hc : 2 ≤ c) (hw : w < c)
    (hr : r < c) (hfull : (r + c - (w + 1)) % c = 0) :
    (w + c - r) % c = c - 1 ∧
      ((r + 1) % c + c - (w + 1)) % c = 1 ∧
      ((w + 1) % c + c - (r + 1) % c) % c = c - 1 := by
  have hcases : (w = c - 1 ∧ r = 0) ∨ r = w + 1 := by
    obtain ⟨q, hq⟩ := Nat.dvd_of_mod_eq_zero hfull
    have hqlt : c * q < c * 2 := by omega
    have hq2 : q < 2 := Nat.lt_of_mul_lt_mul_left hqlt
    interval_cases q <;> omega
  rcases hcases with ⟨hw1, hr0⟩ | hsucc
  · subst hr0
    have e1 : w + c - 0 = (c - 1) + c := by omega
    have e2 : (0 + 1) % c = 1 := by rw [Nat.mod_eq_of_lt (by omega)]
    have e3 : (w + 1) % c = 0 := by
      have : w + 1 = c := by omega
      rw [this, Nat.mod_self]
    refine ⟨?_, ?_, ?_⟩
    · rw [e1, Nat.add_mod_right, Nat.mod_eq_of_lt (by omega)]
    · rw [e2]
      have : 1 + c - (w + 1) = 1 := by omega
      rw [this, Nat.mod_eq_of_lt (by omega)]
    · rw [e3, e2]
      have : 0 + c - 1 = c - 1 := by omega
      rw [this, Nat.mod_eq_of_lt (by omega)]
  · rcases Nat.lt_or_ge (r + 1) c with hrc | hrc
    · have e2 : (r + 1) % c = r + 1 := Nat.mod_eq_of_lt hrc
      have e3 : (w + 1) % c = w + 1 := by
        rw [Nat.mod_eq_of_lt (by omega)]
      refine ⟨?_, ?_, ?_⟩
      · have : w + c - r = c - 1 := by omega
        rw [this, Nat.mod_eq_of_lt (by omega)]
      · rw [e2]
        have : r + 1 + c - (w + 1) = 1 + c := by omega
        rw [this, Nat.add_mod_right, Nat.mod_eq_of_lt (by omega)]
      · rw [e3, e2]
        have : w + 1 + c - (r + 1) = c - 1 := by omega
        rw [this, Nat.mod_eq_of_lt (by omega)]
    · have hrc' : r + 1 = c := by omega
      have e2 : (r + 1) % c = 0 := by rw [hrc', Nat.mod_self]
      have e3 : (w + 1) % c = w + 1 := by
        rw [Nat.mod_eq_of_lt (by omega)]
      refine ⟨?_, ?_, ?_⟩
      · have : w + c - r = c - 1 := by omega
        rw [this, Nat.mod_eq_of_lt (by omega)]
      · rw [e2]
        have : 0 + c - (w + 1) = 1 := by omega
        rw [this, Nat.mod_eq_of_lt (by omega)]
      · rw [e3, e2]
        have : w + 1 + c - 0 = (c - 1) + c := by omega
        rw [this, Nat.add_mod_right, Nat.mod_eq_of_lt (by omega)]

lemma writeFrames_stereo_one {α : Type} [Zero α] (buf : Nat → α) (l r : α)
    (w mask : Nat) :
    RingBuffer.writeFrames buf [l, r] w mask 2 1 ((w &&& mask) * 2) = l ∧
      RingBuffer.writeFrames buf [l, r] w mask 2 1 ((w &&& mask) * 2 + 1) = r := by
  have h1 : List.range 1 = [0] := rfl
  have h2 : List.range 2 = [0, 1] := rfl
  simp only [RingBuffer.writeFrames, h1, h2, List.foldl_cons, List.foldl_nil,
    RingBuffer.setSample, Nat.add_zero, Nat.zero_mul, Nat.zero_add,
    List.getD_cons_zero, List.getD_cons_succ]
  constructor <;> simp

/-- The drop-oldest-and-retry sequence of `PushSample`'s overrun handler, at
the ring level: after one `Read` of the oldest frame and a retry `Write` of
the new frame on a full well-formed stereo ring, the positions advance by
one, available-read is restored, and the new frame sits at the old write
position. -/
lemma ring_drop_retry (rb : RingBuffer Int) (l r : Int) (k : Nat)
    (halloc : rb.alloc = true) (hk : k ≤ 31) (hcap : rb.capacity = 2 ^ k)
    (hc16 : 16 ≤ rb.capacity) (hw : rb.writePos < rb.capacity)
    (hr : rb.readPos < rb.capacity) (hch : rb.channels = 2)
    (hfull : rb.GetAvailableWrite = 0) :
    (((({ rb with overruns := rb.overruns + 1 } : RingBuffer Int).Read 1).1.Write
          (some [l, r]) 1).1.readPos =
        (rb.readPos + 1) &&& (rb.capacity - 1)) ∧
      (((({ rb with overruns := rb.overruns + 1 } : RingBuffer Int).Read 1).1.Write
          (some [l, r]) 1).1.writePos =
        (rb.writePos + 1) &&& (rb.capacity - 1)) ∧
      (((({ rb with overruns := rb.overruns + 1 } : RingBuffer Int).Read 1).1.Write
          (some [l, r]) 1).1.GetAvailableRead = rb.GetAvailableRead) ∧
      (((({ rb with overruns := rb.overruns + 1 } : RingBuffer Int).Read 1).1.Write
          (some [l, r]) 1).1.buffer (rb.writePos * 2) = l) ∧
      (((({ rb with overruns := rb.overruns + 1 } : RingBuffer Int).Read 1).1.Write
          (some [l, r]) 1).1.buffer (rb.writePos * 2 + 1) = r) := by
  have wf : RingBuffer.RingWF rb := ⟨hw, hr, k, hk, hcap⟩
  have hc2 : 2 ≤ rb.capacity := by omega
  have hc0 : 0 < rb.capacity := by omega
  have hfull' :
      (rb.readPos + rb.capacity - (rb.writePos + 1)) % rb.capacity = 0 := by
    rw [← availWrite_norm rb wf]; exact hfull
  obtain ⟨ha1, ha2, ha3⟩ := ring_drop_retry_arith rb.capacity rb.writePos
    rb.readPos hc2 hw hr hfull'
  have hsum := availRead_add_availWrite rb wf
  have hAvail : rb.GetAvailableRead = rb.capacity - 1 := by omega
  have hAvail1 : RingBuffer.GetAvailableRead
      ({ rb with overruns := rb.overruns + 1 } : RingBuffer Int) =
      rb.GetAvailableRead := rfl
  obtain ⟨hrd_read, hrd_write, hrd_cap, hrd_alloc, hrd_ch, hrd_buf⟩ :=
    Read_fst_fields ({ rb with overruns := rb.overruns + 1 } : RingBuffer Int) 1
      halloc one_ne_zero (by rw [hAvail1]; omega)
  rw [hAvail1] at hrd_read
  have hmin1 : min 1 rb.GetAvailableRead = 1 := by omega
  rw [hmin1] at hrd_read
  have hmask : ∀ x : Nat, x &&& (rb.capacity - 1) = x % rb.capacity := by
    intro x; rw [hcap, Nat.and_pow_two_sub_one_eq_mod]
  have hwf1 : RingBuffer.RingWF
      ((({ rb with overruns := rb.overruns + 1 } : RingBuffer Int).Read 1).1) := by
    refine ⟨?_, ?_, k, hk, ?_⟩
    · rw [hrd_write, hrd_cap]; exact hw
    · rw [hrd_read, hrd_cap]; exact and_mask_lt hc0 _
    · rw [hrd_cap]; exact hcap
  have havw1 :
      (RingBuffer.GetAvailableWrite
        ((({ rb with overruns := rb.overruns + 1 } : RingBuffer Int).Read 1).1)) = 1 := by
    rw [availWrite_norm _ hwf1, hrd_read, hrd_write, hrd_cap, hmask]
    exact ha2
  obtain ⟨hok, hw2_write, hw2_read, hw2_cap, hw2_alloc, hw2_ch, hw2_buf⟩ :=
    Write_success_fields
      ((({ rb with overruns := rb.overruns + 1 } : RingBuffer Int).Read 1).1)
      [l, r] 1 (by rw [hrd_alloc]; exact halloc) one_ne_zero (by rw [havw1])
  rw [hrd_read] at hw2_read
  rw [hrd_write, hrd_cap] at hw2_write
  have hwf2 : RingBuffer.RingWF
      (((({ rb with overruns := rb.overruns + 1 } : RingBuffer Int).Read 1).1.Write
        (some [l, r]) 1).1) := by
    refine ⟨?_, ?_, k, hk, ?_⟩
    · rw [hw2_write, hw2_cap, hrd_cap]; exact and_mask_lt hc0 _
    · rw [hw2_read, hw2_cap, hrd_cap]; exact and_mask_lt hc0 _
    · rw [hw2_cap, hrd_cap]; exact hcap
  refine ⟨by rw [hw2_read], by rw [hw2_write], ?_, ?_, ?_⟩
  · rw [availRead_norm _ hwf2, hw2_read, hw2_write, hw2_cap, hrd_cap,
      hmask, hmask, hAvail]
    exact ha3
  · rw [hw2_buf, hrd_buf, hrd_write, hrd_cap, hrd_ch]
    have hb := (writeFrames_stereo_one rb.buffer l r rb.writePos
      (rb.capacity - 1)).1
    rw [hmask, Nat.mod_eq_of_lt hw] at hb
    show RingBuffer.writeFrames rb.buffer [l, r] rb.writePos
      (rb.capacity - 1) rb.channels 1 (rb.writePos * 2) = l
    rw [hch]
    exact hb
  · rw [hw2_buf, hrd_buf, hrd_write, hrd_cap, hrd_ch]
    have hb := (writeFrames_stereo_one rb.buffer l r rb.writePos
      (rb.capacity - 1)).2
    rw [hmask, Nat.mod_eq_of_lt hw] at hb
    show RingBuffer.writeFrames rb.buffer [l, r] rb.writePos
      (rb.capacity - 1) rb.channels 1 (rb.writePos * 2 + 1) = r
    rw [hch]
    exact hb

lemma pushWrite_overrun_general (b : AudioLayer2) (l r : Int) (k : Nat)
    (halloc : b.inputBuffer.alloc = true) (hk : k ≤ 31)
    (hcap : b.inputBuffer.capacity = 2 ^ k)
    (hc16 : 16 ≤ b.inputBuffer.capacity)
    (hw : b.inputBuffer.writePos < b.inputBuffer.capacity)
    (hr : b.inputBuffer.readPos < b.inputBuffer.capacity)
    (hch : b.inputBuffer.channels = 2)
    (hfull : b.inputBuffer.GetAvailableWrite = 0) :
    (b.PushSampleWrite l r).layer2Overruns = b.layer2Overruns + 1 ∧
      (b.PushSampleWrite l r).inputBuffer.readPos =
        (b.inputBuffer.readPos + 1) &&& (b.inputBuffer.capacity - 1) ∧
      (b.PushSampleWrite l r).inputBuffer.writePos =
        (b.inputBuffer.writePos + 1) &&& (b.inputBuffer.capacity - 1) ∧
      (b.PushSampleWrite l r).inputBuffer.GetAvailableRead =
        b.inputBuffer.GetAvailableRead ∧
      (b.PushSampleWrite l r).inputBuffer.buffer
        (b.inputBuffer.writePos * 2) = l ∧
      (b.PushSampleWrite l r).inputBuffer.buffer
        (b.inputBuffer.writePos * 2 + 1) = r := by
  have hw1 := Write_overrun_general b.inputBuffer [l, r] 1 halloc
    (by rw [hfull]; omega)
  have hring := ring_drop_retry b.inputBuffer l r k halloc hk hcap hc16 hw hr
    hch hfull
  simp only [AudioLayer2.PushSampleWrite]
  rw [hw1]
  dsimp only
  exact ⟨rfl, hring.1, hring.2.1, hring.2.2.1, hring.2.2.2.1, hring.2.2.2.2⟩

/-- C5 (amended): within `PushSample` on an initialized bridge whose input
ring is full, the overrun-handling write step (`PushSampleWrite`) counts one
bridge overrun, removes exactly one oldest frame (read position advances by
one), retries the write so the new `(left, right)` frame is retained at the
old write position, and leaves `available_read` unchanged.  `PushSample`
then runs `UpdateRateMeasurement` and `ResampleInputToOutput`, and the
latter may consume up to 128 further frames from the input ring, so
`available_read` at return from `PushSample` can be lower. -/
theorem pushWrite_overrun_drop_oldest (b : AudioLayer2) (l r : Int)
    (cycles sb : ℚ) (k : Nat) (hinit : b.initialized = true)
    (halloc : b.inputBuffer.alloc = true) (hk : k ≤ 31)
    (hcap : b.inputBuffer.capacity = 2 ^ k)
    (hc16 : 16 ≤ b.inputBuffer.capacity)
    (hw : b.inputBuffer.writePos < b.inputBuffer.capacity)
    (hr : b.inputBuffer.readPos < b.inputBuffer.capacity)
    (hch : b.inputBuffer.channels = 2)
    (hfull : b.inputBuffer.GetAvailableWrite = 0) :
    (AudioLayer2.PushSample b l r cycles sb =
      AudioLayer2.ResampleInputToOutput
        (AudioLayer2.UpdateRateMeasurement
          (AudioLayer2.PushSampleWrite
            { b with pushSampleCalls := b.pushSampleCalls + 1 } l r)
          cycles sb)) ∧
      (AudioLayer2.PushSampleWrite
          { b with pushSampleCalls := b.pushSampleCalls + 1 } l r).layer2Overruns =
        b.layer2Overruns + 1 ∧
      (AudioLayer2.PushSampleWrite
          { b with pushSampleCalls := b.pushSampleCalls + 1 } l r).inputBuffer.readPos =
        (b.inputBuffer.readPos + 1) &&& (b.inputBuffer.capacity - 1) ∧
      (AudioLayer2.PushSampleWrite
          { b with pushSampleCalls := b.pushSampleCalls + 1 } l r).inputBuffer.writePos =
        (b.inputBuffer.writePos + 1) &&& (b.inputBuffer.capacity - 1) ∧
      (AudioLayer2.PushSampleWrite
          { b with pushSampleCalls := b.pushSampleCalls + 1 } l r).inputBuffer.GetAvailableRead =
        b.inputBuffer.GetAvailableRead ∧
      (AudioLayer2.PushSampleWrite
          { b with pushSampleCalls := b.pushSampleCalls + 1 } l r).inputBuffer.buffer
        (b.inputBuffer.writePos * 2) = l ∧
      (AudioLayer2.PushSampleWrite
          { b with pushSampleCalls := b.pushSampleCalls + 1 } l r).inputBuffer.buffer
        (b.inputBuffer.writePos * 2 + 1) = r := by
  have hgen := pushWrite_overrun_general
    { b with pushSampleCalls := b.pushSampleCalls + 1 } l r k halloc hk hcap
    hc16 hw hr hch hfull
  refine ⟨?_, hgen.1, hgen.2.1, hgen.2.2.1, hgen.2.2.2.1, hgen.2.2.2.2.1,
    hgen.2.2.2.2.2⟩
  simp only [AudioLayer2.PushSample]
  rw [if_neg (by simp [hinit])]

/-- Concrete bridge for C5: an initialized 3 000 Hz-target bridge whose
32-frame input ring has been filled (31 frames stored, write-available 0). -/
def c5Bridge : AudioLayer2 :=
  let b0 := (AudioLayer2.Initialize
    { targetSampleRate := 3000, channels := 2, ringBufferFrames := 64 }).1
  { b0 with inputBuffer :=
      (b0.inputBuffer.Write (some (List.replicate 62 (0 : Int))) 31).1 }

/-- The bridge after the overrun-handling write step of
`PushSample c5Bridge 5 7 …`. -/
def c5AfterWrite : AudioLayer2 :=
  AudioLayer2.PushSampleWrite
    { c5Bridge with pushSampleCalls := c5Bridge.pushSampleCalls + 1 } 5 7

/-- Counterexample to C5 as stated: on the full `c5Bridge`, a full
`PushSample` call does not leave the input ring's `available_read`
unchanged — its `drain_input` stage consumes the queued frames. -/
theorem pushSample_full_availRead_changes :
    c5Bridge.inputBuffer.GetAvailableWrite = 0 ∧
      (AudioLayer2.PushSample c5Bridge 5 7 0 0).inputBuffer.GetAvailableRead ≠
        c5Bridge.inputBuffer.GetAvailableRead := by
  refine ⟨by decide, ?_⟩
  have hunfold : AudioLayer2.PushSample c5Bridge 5 7 0 0 =
      AudioLayer2.ResampleInputToOutput
        (AudioLayer2.UpdateRateMeasurement c5AfterWrite 0 0) := by
    simp only [AudioLayer2.PushSample, c5AfterWrite]
    rw [if_neg (show ¬c5Bridge.initialized = false by decide)]
  rw [hunfold]
  rw [drain_inputBuffer _ (by decide) (by decide)]
  decide

/-- Witness for the amended C5 at `c5Bridge`. -/
theorem pushWrite_overrun_drop_oldest_witness :
    (AudioLayer2.PushSample c5Bridge 9 (-4) 0 0 =
      AudioLayer2.ResampleInputToOutput
        (AudioLayer2.UpdateRateMeasurement
          (AudioLayer2.PushSampleWrite
            { c5Bridge with pushSampleCalls := c5Bridge.pushSampleCalls + 1 }
            9 (-4)) 0 0)) ∧
      (AudioLayer2.PushSampleWrite
          { c5Bridge with pushSampleCalls := c5Bridge.pushSampleCalls + 1 }
          9 (-4)).layer2Overruns = c5Bridge.layer2Overruns + 1 ∧
      (AudioLayer2.PushSampleWrite
          { c5Bridge with pushSampleCalls := c5Bridge.pushSampleCalls + 1 }
          9 (-4)).inputBuffer.readPos =
        (c5Bridge.inputBuffer.readPos + 1) &&& (c5Bridge.inputBuffer.capacity - 1) ∧
      (AudioLayer2.PushSampleWrite
          { c5Bridge with pushSampleCalls := c5Bridge.pushSampleCalls + 1 }
          9 (-4)).inputBuffer.writePos =
        (c5Bridge.inputBuffer.writePos + 1) &&& (c5Bridge.inputBuffer.capacity - 1) ∧
      (AudioLayer2.PushSampleWrite
          { c5Bridge with pushSampleCalls := c5Bridge.pushSampleCalls + 1 }
          9 (-4)).inputBuffer.GetAvailableRead =
        c5Bridge.inputBuffer.GetAvailableRead ∧
      (AudioLayer2.PushSampleWrite
          { c5Bridge with pushSampleCalls := c5Bridge.pushSampleCalls + 1 }
          9 (-4)).inputBuffer.buffer (c5Bridge.inputBuffer.writePos * 2) = 9 ∧
      (AudioLayer2.PushSampleWrite
          { c5Bridge with pushSampleCalls := c5Bridge.pushSampleCalls + 1 }
          9 (-4)).inputBuffer.buffer (c5Bridge.inputBuffer.writePos * 2 + 1) =
        (-4) :=
  pushWrite_overrun_drop_oldest c5Bridge 9 (-4) 0 0 5 (by decide) (by decide)
    (by norm_num) (by decide) (by decide) (by decide) (by decide) (by decide)
    (by decide)

namespace AudioWASAPILayer3

/-- `AudioWASAPILayer3::ConvertFloatToInt16` (audio_wasapi_layer3.cpp lines
255-268): per sample, clamp to `[-1, 1]` by two sequential tests, scale by
`32767.0f`, cast to `int16_t` (truncation toward zero; the clamped product
lies in `[-32767, 32767]`, inside the `int16_t` range). -/
def ConvertFloatToInt16 (channels : Nat) (input : List ℚ) (frameCount : Nat) :
    List Int :=
  (List.range (frameCount * channels)).map (fun i =>
    let sample := input.getD i 0
    let sample := if sample > 1 then 1 else sample
    let sample := if sample < -1 then -1 else sample
    ctrunc (sample * 32767))

/-- `AudioWASAPILayer3::ConvertFloatToInt32` (lines 270-283), scaling by
`2147483647.0f`. -/
def ConvertFloatToInt32 (channels : Nat) (input : List ℚ) (frameCount : Nat) :
    List Int :=
  (List.range (frameCount * channels)).map (fun i =>
    let sample := input.getD i 0
    let sample := if sample > 1 then 1 else sample
    let sample := if sample < -1 then -1 else sample
    ctrunc (sample * 2147483647))

end AudioWASAPILayer3

/-- `clamp(x, -1, 1)` as the spec states it. -/
def clamp (x : ℚ) : ℚ := max (-1) (min 1 x)

lemma clampSeq_eq (x : ℚ) :
    (if (if x > 1 then (1 : ℚ) else x) < -1 then -1
     else if x > 1 then (1 : ℚ) else x) = clamp x := by
  rw [clamp]
  by_cases h1 : x > 1
  · rw [if_pos h1, if_neg (by norm_num), min_eq_left (le_of_lt h1),
      max_eq_right (by norm_num)]
  · rw [if_neg h1]
    by_cases h2 : x < -1
    · rw [if_pos h2, min_eq_right (by linarith), max_eq_left (by linarith)]
    · rw [if_neg h2, min_eq_right (by linarith), max_eq_right (by linarith)]

/-- C7 (confirmed): every sample of the 16-bit conversion equals
`clamp(x, -1, 1) × 32767` truncated toward zero, and every sample of the
32-bit conversion equals `clamp(x, -1, 1) × 2147483647` truncated toward
zero. -/
theorem convert_clamp_trunc_spec (channels : Nat) (input : List ℚ)
    (frameCount : Nat) :
    AudioWASAPILayer3.ConvertFloatToInt16 channels input frameCount =
      (List.range (frameCount * channels)).map
        (fun i => ctrunc (clamp (input.getD i 0) * 32767)) ∧
    AudioWASAPILayer3.ConvertFloatToInt32 channels input frameCount =
      (List.range (frameCount * channels)).map
        (fun i => ctrunc (clamp (input.getD i 0) * 2147483647)) := by
  constructor
  · simp only [AudioWASAPILayer3.ConvertFloatToInt16]
    refine List.map_congr_left fun i _ => ?_
    rw [clampSeq_eq]
  · simp only [AudioWASAPILayer3.ConvertFloatToInt32]
    refine List.map_congr_left fun i _ => ?_
    rw [clampSeq_eq]
